import Mathlib

/-!
Shallow embedding of the addressing and identity core of the elfo actor
runtime (elfo-core/src/addr.rs, envelope.rs, elfo-network/src/lib.rs,
elfo-utils/src/lib.rs), together with theorems settling the spec's claims
about it.

Machine integers (`u8`, `u16`, `u64`, 64-bit `usize`) are embedded as `Nat`
with explicit truncation (`% 2 ^ w`) exactly where the source casts, and
bounds as hypotheses where the Rust type system supplies them.  Functions
guarded by `#[cfg(feature = "network")]` / `#[cfg(not(...))]` are embedded
twice, with `_net` / `_plain` suffixes.
-/

namespace Elfo

/-- Embeds `NODE_NO_SHIFT` from addr.rs. -/
def NODE_NO_SHIFT : Nat := 48

/-- Embeds `GROUP_NO_SHIFT` from addr.rs. -/
def GROUP_NO_SHIFT : Nat := 40

/-- Embeds `NodeNo(NonZeroU16)`: the node's number.  The `NonZeroU16` payload is
embedded as a bare `Nat`; nonzeroness and the 16-bit bound are carried as
hypotheses where theorems need them. -/
structure NodeNo where
  bits : Nat
deriving DecidableEq

/-- Embeds `NodeNo::from_bits(u16) -> Option<NodeNo>` (via `NonZeroU16::new`). -/
def NodeNo.from_bits (bits : Nat) : Option NodeNo :=
  if bits = 0 then none else some ⟨bits⟩

/-- Embeds `NodeNo::into_bits`. -/
def NodeNo.into_bits (n : NodeNo) : Nat :=
  n.bits

/-- Embeds `NodeLaunchId(u64)`: randomly generated identifier at node start.
`generate()` draws from a random source and is not embedded. -/
structure NodeLaunchId where
  bits : Nat
deriving DecidableEq

/-- Embeds `NodeLaunchId::from_bits`. -/
def NodeLaunchId.from_bits (bits : Nat) : NodeLaunchId :=
  ⟨bits⟩

/-- Embeds `NodeLaunchId::into_bits`. -/
def NodeLaunchId.into_bits (l : NodeLaunchId) : Nat :=
  l.bits

/-- Embeds `GroupNo(NonZeroU8)`: the actor group's number. -/
structure GroupNo where
  bits : Nat
deriving DecidableEq

/-- Embeds `GroupNo::from_bits(u8) -> Option<GroupNo>` (via `NonZeroU8::new`). -/
def GroupNo.from_bits (bits : Nat) : Option GroupNo :=
  if bits = 0 then none else some ⟨bits⟩

/-- Embeds `GroupNo::into_bits`. -/
def GroupNo.into_bits (g : GroupNo) : Nat :=
  g.bits

/-- Embeds `GroupNo::new(no, launch_id)` with the `network` feature enabled
(addr.rs lines 82-94).  `(launch_id.into_bits() >> GROUP_NO_SHIFT) as u8` is
embedded as `>>> GROUP_NO_SHIFT` followed by `% 2 ^ 8`.  The final
`NonZeroU8::new(group_no).unwrap()` cannot panic (the branch guarantees
`group_no` is nonzero, see `groupNo_new_net_some`), so it is embedded as a
direct construction. -/
def GroupNo.new_net (no : Nat) (launch_id : NodeLaunchId) : Option GroupNo :=
  if no = 0 then
    none
  else
    let xor := (launch_id.into_bits >>> GROUP_NO_SHIFT) % 2 ^ 8
    let group_no := if no ≠ xor then no ^^^ xor else xor
    some ⟨group_no⟩

/-- Embeds `GroupNo::new(no, _launch_id)` with the `network` feature disabled. -/
def GroupNo.new_plain (no : Nat) (_launch_id : NodeLaunchId) : Option GroupNo :=
  GroupNo.from_bits no

/-- Embeds `Addr(u64)`. -/
structure Addr where
  bits : Nat
deriving DecidableEq

/-- Embeds `Addr::NULL`. -/
def Addr.NULL : Addr :=
  ⟨0⟩

/-- Embeds `Addr::into_bits`. -/
def Addr.into_bits (a : Addr) : Nat :=
  a.bits

/-- Embeds `Addr::is_null`. -/
def Addr.is_null (a : Addr) : Bool :=
  decide (a = Addr.NULL)

/-- Embeds `Addr::node_no`: `NodeNo::from_bits((self.0 >> NODE_NO_SHIFT) as u16)`. -/
def Addr.node_no (a : Addr) : Option NodeNo :=
  NodeNo.from_bits ((a.bits >>> NODE_NO_SHIFT) % 2 ^ 16)

/-- Embeds `Addr::group_no`: `GroupNo::from_bits((self.0 >> GROUP_NO_SHIFT) as u8)`. -/
def Addr.group_no (a : Addr) : Option GroupNo :=
  GroupNo.from_bits ((a.bits >>> GROUP_NO_SHIFT) % 2 ^ 8)

/-- Embeds `Addr::is_local`. -/
def Addr.is_local (a : Addr) : Bool :=
  !a.is_null && a.node_no.isNone

/-- Embeds `Addr::is_remote` (`network` feature only). -/
def Addr.is_remote (a : Addr) : Bool :=
  a.node_no.isSome

/-- Embeds `Addr::new_local_inner(slot_key, group_no)`. -/
def Addr.new_local_inner (slot_key : Nat) (group_no : GroupNo) : Addr :=
  ⟨group_no.into_bits <<< GROUP_NO_SHIFT ||| slot_key⟩

/-- Embeds `Addr::new_local` with the `network` feature enabled (addr.rs lines
205-210): the slot key is XORed with the launch id and masked to 40 bits
before packing. -/
def Addr.new_local_net (slot_key : Nat) (group_no : GroupNo)
    (launch_id : NodeLaunchId) : Addr :=
  Addr.new_local_inner ((slot_key ^^^ launch_id.into_bits) &&& (1 <<< GROUP_NO_SHIFT - 1))
    group_no

/-- Embeds `Addr::new_local` with the `network` feature disabled. -/
def Addr.new_local_plain (slot_key : Nat) (group_no : GroupNo)
    (_launch_id : NodeLaunchId) : Addr :=
  Addr.new_local_inner slot_key group_no

/-- Embeds `Addr::from_bits`: `Some(Self(bits)).filter(|addr| addr.is_null() ^
addr.group_no().is_some())`. -/
def Addr.from_bits (bits : Nat) : Option Addr :=
  (some (Addr.mk bits)).filter fun addr => Bool.xor addr.is_null addr.group_no.isSome

/-- Embeds `Addr::slot_key(launch_id)` with the `network` feature enabled: the whole
address is XORed with the launch id; `as usize` on a 64-bit platform is
embedded as `% 2 ^ 64`. -/
def Addr.slot_key_net (a : Addr) (launch_id : NodeLaunchId) : Nat :=
  (a.bits ^^^ launch_id.into_bits) % 2 ^ 64

/-- Embeds `Addr::slot_key(_launch_id)` with the `network` feature disabled. -/
def Addr.slot_key_plain (a : Addr) (_launch_id : NodeLaunchId) : Nat :=
  a.bits % 2 ^ 64

/-- Embeds `Addr::into_remote(node_no)` (`network` feature only). -/
def Addr.into_remote (a : Addr) (node_no : NodeNo) : Addr :=
  if a.is_local then ⟨a.bits ||| node_no.into_bits <<< NODE_NO_SHIFT⟩ else a

/-- Embeds `Addr::into_local`. -/
def Addr.into_local (a : Addr) : Addr :=
  ⟨a.bits &&& (1 <<< NODE_NO_SHIFT - 1)⟩

/-- Embeds `impl fmt::Display for Addr` (addr.rs lines 183-199).  The
`expect("invalid addr")` panic on a nonnull address with a zero group byte is
embedded as `none`. -/
def Addr.fmt (a : Addr) : Option String :=
  if a.is_null then
    some "null"
  else
    match a.group_no with
    | none => none
    | some group_no =>
      let bottom := a.bits &&& (1 <<< GROUP_NO_SHIFT - 1)
      match a.node_no with
      | some node_no =>
        some (toString node_no.into_bits ++ "/" ++ toString group_no.into_bits
          ++ "/" ++ toString bottom)
      | none =>
        some (toString group_no.into_bits ++ "/" ++ toString bottom)

/-! ### Arithmetic helper lemmas -/

theorem xor_mod_two_pow (a b n : Nat) :
    (a ^^^ b) % 2 ^ n = (a % 2 ^ n) ^^^ (b % 2 ^ n) := by
  apply Nat.eq_of_testBit_eq
  intro i
  simp only [Nat.testBit_mod_two_pow, Nat.testBit_xor]
  by_cases h : i < n <;> simp [h]

theorem pack_shift (k g s : Nat) (hs : s < 2 ^ k) :
    (g * 2 ^ k + s) >>> k = g := by
  rw [Nat.shiftRight_eq_div_pow, Nat.mul_comm g, Nat.mul_add_div (Nat.two_pow_pos k),
    Nat.div_eq_of_lt hs, Nat.add_zero]

theorem pack_mod (k g s : Nat) (hs : s < 2 ^ k) :
    (g * 2 ^ k + s) % 2 ^ k = s := by
  rw [Nat.mul_comm g, Nat.mul_add_mod, Nat.mod_eq_of_lt hs]

theorem pack_lt_two_pow_48 (g s : Nat) (hg : g < 2 ^ 8) (hs : s < 2 ^ 40) :
    g * 2 ^ 40 + s < 2 ^ 48 := by
  calc g * 2 ^ 40 + s < g * 2 ^ 40 + 2 ^ 40 := by omega
    _ = (g + 1) * 2 ^ 40 := by ring
    _ ≤ 2 ^ 8 * 2 ^ 40 := Nat.mul_le_mul_right _ (by omega)
    _ = 2 ^ 48 := by norm_num

theorem pack_shift48 (g s : Nat) (hg : g < 2 ^ 8) (hs : s < 2 ^ 40) :
    (g * 2 ^ 40 + s) >>> 48 = 0 := by
  rw [Nat.shiftRight_eq_div_pow]
  exact Nat.div_eq_of_lt (pack_lt_two_pow_48 g s hg hs)

theorem pack_mod48 (g s : Nat) (hg : g < 2 ^ 8) (hs : s < 2 ^ 40) :
    (g * 2 ^ 40 + s) % 2 ^ 48 = g * 2 ^ 40 + s :=
  Nat.mod_eq_of_lt (pack_lt_two_pow_48 g s hg hs)

theorem pack_inj (g1 s1 g2 s2 : Nat) (hs1 : s1 < 2 ^ 40) (hs2 : s2 < 2 ^ 40)
    (h : g1 * 2 ^ 40 + s1 = g2 * 2 ^ 40 + s2) : g1 = g2 ∧ s1 = s2 := by
  have h40 : (g1 * 2 ^ 40 + s1) >>> 40 = (g2 * 2 ^ 40 + s2) >>> 40 := by rw [h]
  rw [pack_shift 40 g1 s1 hs1, pack_shift 40 g2 s2 hs2] at h40
  exact ⟨h40, by omega⟩

/-! ### Lemmas about the embedded definitions -/

theorem new_local_inner_bits (g : GroupNo) (s : Nat) (hs : s < 2 ^ 40) :
    (Addr.new_local_inner s g).bits = g.bits * 2 ^ 40 + s := by
  show g.bits <<< GROUP_NO_SHIFT ||| s = _
  rw [GROUP_NO_SHIFT, Nat.shiftLeft_eq, Nat.mul_comm g.bits, ← Nat.mul_add_lt_is_or hs,
    Nat.mul_comm]

theorem new_local_net_bits (s : Nat) (g : GroupNo) (l : NodeLaunchId) :
    (Addr.new_local_net s g l).bits = g.bits * 2 ^ 40 + (s ^^^ l.bits) % 2 ^ 40 := by
  show (Addr.new_local_inner ((s ^^^ l.bits) &&& (1 <<< GROUP_NO_SHIFT - 1)) g).bits = _
  rw [GROUP_NO_SHIFT, Nat.one_shiftLeft, Nat.and_pow_two_sub_one_eq_mod]
  exact new_local_inner_bits g _ (Nat.mod_lt _ (by norm_num))

theorem new_local_plain_bits (s : Nat) (g : GroupNo) (l : NodeLaunchId)
    (hs : s < 2 ^ 40) :
    (Addr.new_local_plain s g l).bits = g.bits * 2 ^ 40 + s :=
  new_local_inner_bits g s hs

theorem addr_group_no_pack (g s : Nat) (hg : g < 2 ^ 8) (hs : s < 2 ^ 40) :
    (Addr.mk (g * 2 ^ 40 + s)).group_no = GroupNo.from_bits g := by
  rw [Addr.group_no, GROUP_NO_SHIFT]
  rw [show (Addr.mk (g * 2 ^ 40 + s)).bits = g * 2 ^ 40 + s from rfl]
  rw [pack_shift 40 g s hs, Nat.mod_eq_of_lt hg]

theorem addr_node_no_pack (g s : Nat) (hg : g < 2 ^ 8) (hs : s < 2 ^ 40) :
    (Addr.mk (g * 2 ^ 40 + s)).node_no = none := by
  rw [Addr.node_no, NODE_NO_SHIFT]
  rw [show (Addr.mk (g * 2 ^ 40 + s)).bits = g * 2 ^ 40 + s from rfl]
  rw [pack_shift48 g s hg hs]
  rfl

theorem addr_is_null_pack (g s : Nat) (hg0 : 0 < g) :
    (Addr.mk (g * 2 ^ 40 + s)).is_null = false := by
  have hpos : 0 < g * 2 ^ 40 + s :=
    Nat.lt_of_lt_of_le (Nat.mul_pos hg0 (by norm_num)) (Nat.le_add_right _ _)
  simp only [Addr.is_null, Addr.NULL, decide_eq_false_iff_not, Addr.mk.injEq]
  omega

theorem groupNo_new_net_eq (no : Nat) (l : NodeLaunchId) (h0 : no ≠ 0) :
    GroupNo.new_net no l =
      some ⟨if no ≠ (l.bits >>> 40) % 2 ^ 8 then no ^^^ ((l.bits >>> 40) % 2 ^ 8)
            else (l.bits >>> 40) % 2 ^ 8⟩ := by
  simp [GroupNo.new_net, h0, NodeLaunchId.into_bits, GROUP_NO_SHIFT]

theorem xor_ne_zero_of_ne {a b : Nat} (h : a ≠ b) : a ^^^ b ≠ 0 := by
  intro hzero
  apply h
  have hc := congrArg (· ^^^ b) hzero
  simpa [Nat.xor_cancel_right] using hc

theorem eq_zero_of_xor_eq_self {a b : Nat} (h : a ^^^ b = b) : a = 0 := by
  have hc := congrArg (· ^^^ b) h
  simpa [Nat.xor_cancel_right, Nat.xor_self] using hc

theorem groupNo_new_net_some (no : Nat) (l : NodeLaunchId)
    (h1 : 1 ≤ no) (h255 : no ≤ 255) :
    ∃ g : GroupNo, GroupNo.new_net no l = some g ∧ 1 ≤ g.bits ∧ g.bits ≤ 255 := by
  rw [groupNo_new_net_eq no l (by omega)]
  have hx : (l.bits >>> 40) % 2 ^ 8 < 2 ^ 8 := Nat.mod_lt _ (by norm_num)
  by_cases hcase : no = (l.bits >>> 40) % 2 ^ 8
  · rw [if_neg (not_not_intro hcase)]
    refine ⟨⟨(l.bits >>> 40) % 2 ^ 8⟩, rfl, ?_, ?_⟩
    · show 1 ≤ (l.bits >>> 40) % 2 ^ 8
      omega
    · show (l.bits >>> 40) % 2 ^ 8 ≤ 255
      omega
  · rw [if_pos hcase]
    have hne : no ^^^ (l.bits >>> 40) % 2 ^ 8 ≠ 0 := xor_ne_zero_of_ne hcase
    have hlt : no ^^^ (l.bits >>> 40) % 2 ^ 8 < 2 ^ 8 := Nat.xor_lt_two_pow (by omega) hx
    refine ⟨⟨no ^^^ (l.bits >>> 40) % 2 ^ 8⟩, rfl, ?_, ?_⟩
    · show 1 ≤ no ^^^ (l.bits >>> 40) % 2 ^ 8
      omega
    · show no ^^^ (l.bits >>> 40) % 2 ^ 8 ≤ 255
      omega

theorem groupNo_new_net_inj (l : NodeLaunchId) (n1 n2 : Nat)
    (h1 : 1 ≤ n1) (h1' : n1 ≤ 255) (h2 : 1 ≤ n2) (h2' : n2 ≤ 255)
    (h : GroupNo.new_net n1 l = GroupNo.new_net n2 l) : n1 = n2 := by
  rw [groupNo_new_net_eq n1 l (by omega), groupNo_new_net_eq n2 l (by omega)] at h
  simp only [Option.some.injEq, GroupNo.mk.injEq] at h
  by_cases c1 : n1 = (l.bits >>> 40) % 2 ^ 8 <;>
    by_cases c2 : n2 = (l.bits >>> 40) % 2 ^ 8
  · omega
  · rw [if_neg (not_not_intro c1), if_pos c2] at h
    have : n2 = 0 := eq_zero_of_xor_eq_self h.symm
    omega
  · rw [if_pos c1, if_neg (not_not_intro c2)] at h
    have : n1 = 0 := eq_zero_of_xor_eq_self h
    omega
  · rw [if_pos c1, if_pos c2] at h
    have hc := congrArg (· ^^^ (l.bits >>> 40) % 2 ^ 8) h
    simpa [Nat.xor_cancel_right] using hc

theorem groupNo_new_net_surj (l : NodeLaunchId) (b : Nat)
    (hb1 : 1 ≤ b) (hb255 : b ≤ 255) :
    ∃ no, 1 ≤ no ∧ no ≤ 255 ∧ GroupNo.new_net no l = some ⟨b⟩ := by
  have hx : (l.bits >>> 40) % 2 ^ 8 < 2 ^ 8 := Nat.mod_lt _ (by norm_num)
  by_cases hcase : b = (l.bits >>> 40) % 2 ^ 8
  · refine ⟨(l.bits >>> 40) % 2 ^ 8, by omega, by omega, ?_⟩
    rw [groupNo_new_net_eq ((l.bits >>> 40) % 2 ^ 8) l (by omega),
      if_neg (not_not_intro rfl), hcase]
  · have hne0 : b ^^^ (l.bits >>> 40) % 2 ^ 8 ≠ 0 := xor_ne_zero_of_ne hcase
    have hlt : b ^^^ (l.bits >>> 40) % 2 ^ 8 < 2 ^ 8 := Nat.xor_lt_two_pow (by omega) hx
    have hnex : b ^^^ (l.bits >>> 40) % 2 ^ 8 ≠ (l.bits >>> 40) % 2 ^ 8 := by
      intro hxx
      have : b = 0 := eq_zero_of_xor_eq_self hxx
      omega
    refine ⟨b ^^^ (l.bits >>> 40) % 2 ^ 8, by omega, by omega, ?_⟩
    rw [groupNo_new_net_eq (b ^^^ (l.bits >>> 40) % 2 ^ 8) l hne0, if_pos hnex,
      Nat.xor_cancel_right]

theorem pack_eq_or (k g s : Nat) (hs : s < 2 ^ k) :
    g * 2 ^ k + s = g <<< k ||| s := by
  rw [Nat.shiftLeft_eq, Nat.mul_comm g (2 ^ k)]
  exact Nat.mul_add_lt_is_or hs g

theorem pack_xor_mask48 (g s l : Nat) (hg : g < 2 ^ 8) (hs : s < 2 ^ 40) :
    (g * 2 ^ 40 + s) ^^^ (l % 2 ^ 48) =
      (g ^^^ ((l >>> 40) % 2 ^ 8)) * 2 ^ 40 + (s ^^^ l) % 2 ^ 40 := by
  have hB : (s ^^^ l) % 2 ^ 40 < 2 ^ 40 := Nat.mod_lt _ (by norm_num)
  have hA : g ^^^ ((l >>> 40) % 2 ^ 8) < 2 ^ 8 :=
    Nat.xor_lt_two_pow hg (Nat.mod_lt _ (by norm_num))
  rw [pack_eq_or 40 g s hs, pack_eq_or 40 (g ^^^ ((l >>> 40) % 2 ^ 8)) ((s ^^^ l) % 2 ^ 40) hB]
  apply Nat.eq_of_testBit_eq
  intro i
  simp only [Nat.testBit_xor, Nat.testBit_or, Nat.testBit_mod_two_pow, Nat.testBit_shiftLeft,
    Nat.testBit_shiftRight]
  rcases Nat.lt_or_ge i 40 with hi | hi
  · have h40 : ¬(40 ≤ i) := by omega
    have h48 : i < 48 := by omega
    simp [h40, h48, hi]
  · have hsb : s.testBit i = false :=
      Nat.testBit_lt_two_pow (Nat.lt_of_lt_of_le hs (Nat.pow_le_pow_right (by norm_num) hi))
    rcases Nat.lt_or_ge i 48 with hi48 | hi48
    · have hsub : i - 40 < 8 := by omega
      have hadd : 40 + (i - 40) = i := by omega
      simp [hi, hi48, hsb, hsub, hadd]
    · have hgb : g.testBit (i - 40) = false :=
        Nat.testBit_lt_two_pow
          (Nat.lt_of_lt_of_le hg (Nat.pow_le_pow_right (by norm_num) (by omega)))
      have hno8 : ¬(i - 40 < 8) := by omega
      have h48 : ¬(i < 48) := by omega
      simp [hi, h48, hsb, hgb, hno8]

theorem addr_from_bits_pack (g s : Nat) (hg0 : 0 < g) (hg : g < 2 ^ 8) (hs : s < 2 ^ 40) :
    Addr.from_bits (g * 2 ^ 40 + s) = some (Addr.mk (g * 2 ^ 40 + s)) := by
  have h1 : (Addr.mk (g * 2 ^ 40 + s)).is_null = false := addr_is_null_pack g s hg0
  have h2 : (Addr.mk (g * 2 ^ 40 + s)).group_no = some ⟨g⟩ := by
    rw [addr_group_no_pack g s hg hs, GroupNo.from_bits, if_neg (by omega)]
  rw [Addr.from_bits]
  rw [show (some (Addr.mk (g * 2 ^ 40 + s))).filter
        (fun addr => Bool.xor addr.is_null addr.group_no.isSome) =
      if Bool.xor (Addr.mk (g * 2 ^ 40 + s)).is_null (Addr.mk (g * 2 ^ 40 + s)).group_no.isSome
      then some (Addr.mk (g * 2 ^ 40 + s)) else none from rfl]
  rw [h1, h2]
  rfl

theorem addr_into_local_small (a : Addr) (h : a.bits < 2 ^ 48) : a.into_local = a := by
  rw [Addr.into_local, NODE_NO_SHIFT, Nat.one_shiftLeft, Nat.and_pow_two_sub_one_eq_mod,
    Nat.mod_eq_of_lt h]

theorem usize_mod40 (x : Nat) : x % 2 ^ 64 % 2 ^ 40 = x % 2 ^ 40 :=
  Nat.mod_mod_of_dvd x (Nat.pow_dvd_pow 2 (by omega))

theorem slot_key_net_mask (s : Nat) (g : GroupNo) (l : NodeLaunchId) (hs : s < 2 ^ 40) :
    (Addr.new_local_net s g l).slot_key_net l &&& (2 ^ 40 - 1) = s := by
  have hbits : (Addr.new_local_net s g l).bits = g.bits * 2 ^ 40 + (s ^^^ l.bits) % 2 ^ 40 :=
    new_local_net_bits s g l
  rw [Addr.slot_key_net, NodeLaunchId.into_bits, Nat.and_pow_two_sub_one_eq_mod, usize_mod40,
    xor_mod_two_pow, hbits, pack_mod 40 g.bits _ (Nat.mod_lt _ (by norm_num)),
    xor_mod_two_pow, Nat.mod_eq_of_lt hs, Nat.xor_cancel_right]

theorem slot_key_plain_mask (s : Nat) (g : GroupNo) (l : NodeLaunchId) (hs : s < 2 ^ 40) :
    (Addr.new_local_plain s g l).slot_key_plain l &&& (2 ^ 40 - 1) = s := by
  rw [Addr.slot_key_plain, Nat.and_pow_two_sub_one_eq_mod, usize_mod40,
    new_local_plain_bits s g l hs, pack_mod 40 g.bits s hs]

theorem is_local_bits_lt (a : Addr) (h : a.is_local = true) (h64 : a.bits < 2 ^ 64) :
    a.bits < 2 ^ 48 := by
  rw [Addr.is_local, Bool.and_eq_true] at h
  obtain ⟨-, h2⟩ := h
  rw [Addr.node_no, NodeNo.from_bits, NODE_NO_SHIFT] at h2
  by_cases hz : a.bits >>> 48 % 2 ^ 16 = 0
  · have hlt : a.bits >>> 48 < 2 ^ 16 := by
      rw [Nat.shiftRight_eq_div_pow]
      exact Nat.div_lt_of_lt_mul (by calc a.bits < 2 ^ 64 := h64
        _ = 2 ^ 48 * 2 ^ 16 := by norm_num)
    rw [Nat.mod_eq_of_lt hlt] at hz
    rw [Nat.shiftRight_eq_div_pow] at hz
    exact (Nat.div_eq_zero_iff (Nat.two_pow_pos 48)).mp hz
  · rw [if_neg hz] at h2
    simp at h2

theorem addr_is_local_pack (g s : Nat) (hg0 : 0 < g) (hg : g < 2 ^ 8) (hs : s < 2 ^ 40) :
    (Addr.mk (g * 2 ^ 40 + s)).is_local = true := by
  rw [Addr.is_local, addr_is_null_pack g s hg0, addr_node_no_pack g s hg hs]
  rfl

theorem into_remote_bits (a : Addr) (n : NodeNo) (hl : a.is_local = true)
    (h48 : a.bits < 2 ^ 48) :
    (a.into_remote n).bits = n.bits * 2 ^ 48 + a.bits := by
  rw [Addr.into_remote, if_pos hl]
  show a.bits ||| n.bits <<< NODE_NO_SHIFT = _
  rw [NODE_NO_SHIFT, pack_eq_or 48 n.bits a.bits h48, Nat.lor_comm]

theorem remote_pack_node_no (n ab : Nat) (hn0 : 0 < n) (hn : n < 2 ^ 16) (hab : ab < 2 ^ 48) :
    (Addr.mk (n * 2 ^ 48 + ab)).node_no = some ⟨n⟩ := by
  rw [Addr.node_no, NODE_NO_SHIFT]
  rw [show (Addr.mk (n * 2 ^ 48 + ab)).bits = n * 2 ^ 48 + ab from rfl]
  rw [pack_shift 48 n ab hab, Nat.mod_eq_of_lt hn, NodeNo.from_bits, if_neg (by omega)]

theorem remote_pack_mod48 (n ab : Nat) (hab : ab < 2 ^ 48) :
    (n * 2 ^ 48 + ab) % 2 ^ 48 = ab :=
  pack_mod 48 n ab hab

theorem remote_pack_shift40 (n ab : Nat) :
    (n * 2 ^ 48 + ab) >>> 40 = n * 2 ^ 8 + ab >>> 40 := by
  rw [Nat.shiftRight_eq_div_pow, Nat.shiftRight_eq_div_pow,
    show n * 2 ^ 48 = 2 ^ 40 * (n * 2 ^ 8) from by ring,
    Nat.mul_add_div (Nat.two_pow_pos 40)]

theorem remote_pack_shift40_mod8 (n ab : Nat) :
    ((n * 2 ^ 48 + ab) >>> 40) % 2 ^ 8 = (ab >>> 40) % 2 ^ 8 := by
  rw [remote_pack_shift40, Nat.mul_comm n, Nat.mul_add_mod]

theorem remote_pack_mod40 (n ab : Nat) :
    (n * 2 ^ 48 + ab) % 2 ^ 40 = ab % 2 ^ 40 := by
  rw [show n * 2 ^ 48 = 2 ^ 40 * (n * 2 ^ 8) from by ring, Nat.mul_add_mod]

/-! ### Envelope (elfo-core/src/envelope.rs)

`AnyMessage` type erasure is irrelevant to the claims settled here, so the
envelope is embedded parametrically in the message type `M`; `clone()` of a
message is the identity (Lean values are immutable). -/

/-- Embeds `TraceId` (a nonzero 64-bit correlation id, collaborator). -/
structure TraceId where
  bits : Nat
deriving DecidableEq

/-- Modelled from the spec: `ResponseToken` (request_table.rs is not under
src/).  Per the spec it "holds the requesting actor's `Addr` and an opaque
correlation handle returned by that actor's request table"; the handle is
embedded as a bare `Nat`. -/
structure ResponseToken where
  sender : Addr
  correlation : Nat
deriving DecidableEq

/-- Embeds `MessageKind` from envelope.rs. -/
inductive MessageKind where
  | Regular (sender : Addr)
  | RequestAny (token : ResponseToken)
  | RequestAll (token : ResponseToken)
deriving DecidableEq

/-- Embeds `Envelope` from envelope.rs. -/
structure Envelope (M : Type) where
  trace_id : TraceId
  kind : MessageKind
  message : M

/-- Embeds `Envelope::sender` from envelope.rs. -/
def Envelope.sender {M : Type} (e : Envelope M) : Addr :=
  match e.kind with
  | .Regular sender => sender
  | .RequestAny token => token.sender
  | .RequestAll token => token.sender

/-- Modelled from the spec: the sender actor's `RequestTable` (request_table.rs
is not under src/); `clone_token` "reissues a sibling request token", returning
`None` when the table refuses. -/
structure RequestTable where
  clone_token : ResponseToken → Option ResponseToken

/-- Modelled from the spec: an `Actor` object carrying a `request_table`
(actor.rs is not under src/). -/
structure Actor where
  request_table : RequestTable

/-- Modelled from the spec: `Object::as_actor() -> Option<&Actor>` "narrows to
an actor" (object.rs is not under src/); an object whose `as_actor` is `none`
is a group object. -/
structure Object where
  as_actor : Option Actor

/-- Modelled from the spec: `AddressBook::get(addr) -> Option<Object>`
"resolves a live address to an object" (address_book.rs is not under src/). -/
structure AddressBook where
  get : Addr → Option Object

/-- Resolving the sender to an actor: `book.get(addr)` followed by
`object.as_actor()`, the two lookups `Envelope::duplicate` chains with `?`. -/
def AddressBook.get_actor (book : AddressBook) (addr : Addr) : Option Actor :=
  (book.get addr).bind fun object => object.as_actor

/-- Embeds `Envelope::duplicate(book)` from envelope.rs (lines 75-93): `Regular`
duplicates unconditionally; `RequestAny`/`RequestAll` look the sender up and
ask its request table for a sibling token, propagating `None`. -/
def Envelope.duplicate {M : Type} (e : Envelope M) (book : AddressBook) :
    Option (Envelope M) :=
  match e.kind with
  | .Regular sender => some ⟨e.trace_id, .Regular sender, e.message⟩
  | .RequestAny token =>
    (book.get token.sender).bind fun object =>
      object.as_actor.bind fun actor =>
        (actor.request_table.clone_token token).bind fun token' =>
          some ⟨e.trace_id, .RequestAny token', e.message⟩
  | .RequestAll token =>
    (book.get token.sender).bind fun object =>
      object.as_actor.bind fun actor =>
        (actor.request_table.clone_token token).bind fun token' =>
          some ⟨e.trace_id, .RequestAll token', e.message⟩

/-! ### Network actor key and router (elfo-network/src/lib.rs) -/

/-- Modelled from the spec: `GroupInfo` from protocol.rs (not under src/),
carrying the node number and group name used by `ActorKey::Worker`. -/
structure GroupInfo where
  node_no : Nat
  group_name : String
deriving DecidableEq

/-- Embeds `ActorKey` from elfo-network/src/lib.rs.  The `local` / `remote` fields
are named `loc` / `rem` (`local` is a Lean keyword). -/
inductive ActorKey where
  | Discovery
  | Worker (loc rem : GroupInfo)
deriving DecidableEq

/-- Modelled from the spec: the router `Outcome` sum type
(routers are not under src/). -/
inductive Outcome (K : Type) where
  | Unicast (key : K)
  | Multicast (keys : List K)
  | Broadcast
  | Default
  | Discard
deriving DecidableEq

/-- The messages the network router's `msg!` match distinguishes:
`UpdateConfig`, `HandleConnection { local, remote }`, and any other message
(embedded as `Other` with an opaque tag). -/
inductive NetworkMessage where
  | UpdateConfig
  | HandleConnection (loc rem : GroupInfo)
  | Other (tag : String)
deriving DecidableEq

/-- The `MapRouter` closure from `elfo_network::new` (lib.rs lines 68-78). -/
def network_router (envelope : NetworkMessage) : Outcome ActorKey :=
  match envelope with
  | .UpdateConfig => .Unicast .Discovery
  | .HandleConnection loc rem => .Unicast (.Worker loc rem)
  | .Other _ => .Default

/-! ### Error chains (elfo-utils/src/lib.rs) -/

/-- A `dyn Error` value: its own `Display` line and an optional `source()`.
`leaf` is an error without a cause; `ctx` wraps a cause. -/
inductive DynError where
  | leaf (message : String)
  | ctx (message : String) (cause : DynError)
deriving DecidableEq

/-- The error's own `Display` output. -/
def DynError.display : DynError → String
  | .leaf m => m
  | .ctx m _ => m

/-- Embeds `Error::source`. -/
def DynError.source : DynError → Option DynError
  | .leaf _ => none
  | .ctx _ e => some e

/-- The output of the `while let Some(err) = cursor.source()` loop in
`impl Display for ErrorChain` (lib.rs lines 45-57): one `": {err}"` segment
per cause. -/
def errorChainRest : DynError → String
  | .leaf _ => ""
  | .ctx _ e => ": " ++ e.display ++ errorChainRest e

/-- Embeds `impl fmt::Display for ErrorChain`: the root's display followed by the
loop's segments. -/
def ErrorChain.fmt (e : DynError) : String :=
  e.display ++ errorChainRest e

/-- The displays of the whole cause chain, outer first (spec side). -/
def DynError.chainDisplays : DynError → List String
  | .leaf m => [m]
  | .ctx m e => m :: chainDisplays e

/-- Joining strings with `": "` (spec side: the claims describe the chain
formatting as the displays "joined by : "). -/
def joinColon : List String → String
  | [] => ""
  | [d] => d
  | d :: d' :: rest => d ++ ": " ++ joinColon (d' :: rest)

/-! ### Further helper lemmas -/

/-- What the two chained lookups and `clone_token` of `Envelope::duplicate`
produce for a request token: the freshly minted sibling token, if any. -/
def AddressBook.mint (book : AddressBook) (t : ResponseToken) : Option ResponseToken :=
  (book.get_actor t.sender).bind fun actor => actor.request_table.clone_token t

theorem duplicate_requestAny {M : Type} (e : Envelope M) (book : AddressBook)
    (t : ResponseToken) (hk : e.kind = .RequestAny t) :
    e.duplicate book =
      (book.mint t).map fun t' => ⟨e.trace_id, .RequestAny t', e.message⟩ := by
  simp only [Envelope.duplicate, hk, AddressBook.mint, AddressBook.get_actor]
  cases book.get t.sender with
  | none => rfl
  | some o =>
    simp only [Option.bind]
    cases o.as_actor with
    | none => rfl
    | some actor =>
      simp only [Option.bind]
      cases actor.request_table.clone_token t with
      | none => rfl
      | some t' => rfl

theorem duplicate_requestAll {M : Type} (e : Envelope M) (book : AddressBook)
    (t : ResponseToken) (hk : e.kind = .RequestAll t) :
    e.duplicate book =
      (book.mint t).map fun t' => ⟨e.trace_id, .RequestAll t', e.message⟩ := by
  simp only [Envelope.duplicate, hk, AddressBook.mint, AddressBook.get_actor]
  cases book.get t.sender with
  | none => rfl
  | some o =>
    simp only [Option.bind]
    cases o.as_actor with
    | none => rfl
    | some actor =>
      simp only [Option.bind]
      cases actor.request_table.clone_token t with
      | none => rfl
      | some t' => rfl

theorem mint_eq_none_iff (book : AddressBook) (t : ResponseToken) :
    book.mint t = none ↔
      book.get_actor t.sender = none ∨
      ∃ actor, book.get_actor t.sender = some actor ∧
        actor.request_table.clone_token t = none := by
  cases hga : book.get_actor t.sender with
  | none => simp [AddressBook.mint, hga]
  | some actor => simp [AddressBook.mint, hga]

theorem chainDisplays_head (e : DynError) :
    ∃ t, e.chainDisplays = e.display :: t := by
  cases e with
  | leaf m => exact ⟨[], rfl⟩
  | ctx m e => exact ⟨e.chainDisplays, rfl⟩

theorem fmt_eq_joinColon (e : DynError) :
    ErrorChain.fmt e = joinColon e.chainDisplays := by
  induction e with
  | leaf m =>
    simp [ErrorChain.fmt, errorChainRest, DynError.display, DynError.chainDisplays, joinColon]
  | ctx m e ih =>
    obtain ⟨t, ht⟩ := chainDisplays_head e
    show DynError.display (.ctx m e) ++ errorChainRest (.ctx m e) =
      joinColon (DynError.chainDisplays (.ctx m e))
    rw [show DynError.display (.ctx m e) = m from rfl,
      show errorChainRest (.ctx m e) = ": " ++ e.display ++ errorChainRest e from rfl,
      show DynError.chainDisplays (.ctx m e) = m :: e.chainDisplays from rfl, ht,
      show joinColon (m :: e.display :: t) = m ++ ": " ++ joinColon (e.display :: t) from rfl,
      ← ht, ← ih]
    rw [ErrorChain.fmt]
    simp [String.append_assoc]

/-! ### Claims -/

/-- Claim C1, counterexample: in network mode `Addr::new_local` is NOT
pairwise injective across distinct `(slot_key, no, launch_id)` triples.  The
triples `(0, 1, launch_id 0)` and `(1, 1, launch_id 1)` are distinct, their
group numbers are produced by `GroupNo::new` exactly as the claim prescribes,
yet both yield the address with bits `1 <<< 40`: the low 40 bits are
`slot_key ^ launch_id`, and `0 ^ 0 = 1 ^ 1`. -/
theorem addr_unique_cross_launch_cex :
    ((0 : Nat), (1 : Nat), (0 : Nat)) ≠ ((1 : Nat), (1 : Nat), (1 : Nat))
  ∧ GroupNo.new_net 1 ⟨0⟩ = some ⟨1⟩
  ∧ GroupNo.new_net 1 ⟨1⟩ = some ⟨1⟩
  ∧ Addr.new_local_net 0 ⟨1⟩ ⟨0⟩ = Addr.new_local_net 1 ⟨1⟩ ⟨1⟩ := by
  decide

/-- Claim C1 (amended): in network mode, for each FIXED launch id,
`Addr::new_local` produces pairwise distinct addresses across distinct pairs
`(slot_key, no)` with `slot_key < 2^40` and `no ∈ 1..=255` (the group number
being minted by `GroupNo::new` under the same launch id); in plain mode it
produces pairwise distinct addresses across distinct pairs
`(slot_key, group_no)` even across different launch ids. -/
theorem addr_new_local_unique :
    (∀ (lid : NodeLaunchId) (s1 s2 n1 n2 : Nat) (g1 g2 : GroupNo),
      s1 < 2 ^ 40 → s2 < 2 ^ 40 →
      1 ≤ n1 → n1 ≤ 255 → 1 ≤ n2 → n2 ≤ 255 →
      GroupNo.new_net n1 lid = some g1 → GroupNo.new_net n2 lid = some g2 →
      (s1, n1) ≠ (s2, n2) →
      Addr.new_local_net s1 g1 lid ≠ Addr.new_local_net s2 g2 lid)
  ∧ (∀ (lid1 lid2 : NodeLaunchId) (s1 s2 : Nat) (g1 g2 : GroupNo),
      s1 < 2 ^ 40 → s2 < 2 ^ 40 → g1.bits < 2 ^ 8 → g2.bits < 2 ^ 8 →
      (s1, g1) ≠ (s2, g2) →
      Addr.new_local_plain s1 g1 lid1 ≠ Addr.new_local_plain s2 g2 lid2) := by
  constructor
  · intro lid s1 s2 n1 n2 g1 g2 hs1 hs2 hn1 hn1' hn2 hn2' hg1 hg2 hne heq
    have hb := congrArg Addr.bits heq
    rw [new_local_net_bits, new_local_net_bits] at hb
    obtain ⟨hgb, hsb⟩ := pack_inj _ _ _ _ (Nat.mod_lt _ (by norm_num))
      (Nat.mod_lt _ (by norm_num)) hb
    have hg12 : g1 = g2 := by
      cases g1
      cases g2
      simpa using hgb
    have hn12 : n1 = n2 :=
      groupNo_new_net_inj lid n1 n2 hn1 hn1' hn2 hn2' (by rw [hg1, hg2, hg12])
    have hs12 : s1 = s2 := by
      rw [xor_mod_two_pow, xor_mod_two_pow, Nat.mod_eq_of_lt hs1, Nat.mod_eq_of_lt hs2] at hsb
      have hc := congrArg (· ^^^ lid.bits % 2 ^ 40) hsb
      simpa [Nat.xor_cancel_right] using hc
    exact hne (by rw [hn12, hs12])
  · intro lid1 lid2 s1 s2 g1 g2 hs1 hs2 hg1 hg2 hne heq
    have hb := congrArg Addr.bits heq
    rw [new_local_plain_bits s1 g1 lid1 hs1, new_local_plain_bits s2 g2 lid2 hs2] at hb
    obtain ⟨hgb, hsb⟩ := pack_inj _ _ _ _ hs1 hs2 hb
    have hg12 : g1 = g2 := by
      cases g1
      cases g2
      simpa using hgb
    exact hne (by rw [hsb, hg12])

/-- Witness for the amended claim C1 at concrete inputs. -/
theorem addr_new_local_unique_witness :
    Addr.new_local_net 0 ⟨1⟩ ⟨0⟩ ≠ Addr.new_local_net 1 ⟨1⟩ ⟨0⟩
  ∧ Addr.new_local_plain 0 ⟨1⟩ ⟨0⟩ ≠ Addr.new_local_plain 1 ⟨1⟩ ⟨7⟩ := by
  constructor
  · exact addr_new_local_unique.1 ⟨0⟩ 0 1 1 1 ⟨1⟩ ⟨1⟩ (by decide) (by decide) (by decide)
      (by decide) (by decide) (by decide) (by decide) (by decide) (by decide)
  · exact addr_new_local_unique.2 ⟨0⟩ ⟨7⟩ 0 1 ⟨1⟩ ⟨1⟩ (by decide) (by decide) (by decide)
      (by decide) (by decide)

/-- Claim C2, counterexample: when `no` equals the xor byte
`(launch_id >> 40) as u8`, the bits of the constructed address do NOT equal
the plain packing with its lower 48 bits XORed with the launch id.  With
`no = 1`, `slot_key = 0`, `launch_id = 1 <<< 40`: the xor byte is `1`, so
`GroupNo::new` stores `1` (not `1 ^ 1 = 0`), and the address bits are
`1 <<< 40`, while the claimed XOR formula gives `0`. -/
theorem addr_bits_xor_cex :
    GroupNo.new_net 1 ⟨1 <<< 40⟩ = some ⟨1⟩
  ∧ (Addr.new_local_net 0 ⟨1⟩ ⟨1 <<< 40⟩).into_bits = 1 <<< 40
  ∧ (1 <<< 40 ||| 0) ^^^ ((1 <<< 40) &&& (2 ^ 48 - 1)) = 0
  ∧ (Addr.new_local_net 0 ⟨1⟩ ⟨1 <<< 40⟩).into_bits ≠
      (1 <<< 40 ||| 0) ^^^ ((1 <<< 40) &&& (2 ^ 48 - 1)) := by
  decide

/-- Claim C2 (amended): in network mode, for `slot_key < 2^40`, `no ∈ 1..=255`
and `g = GroupNo::new(no, launch_id).unwrap()`, the bits of
`Addr::new_local(slot_key, g, launch_id)` equal the plain packing
`(no << 40) | slot_key` with its lower 48 bits XORed with the lower 48 bits of
the launch id, PROVIDED `no` differs from the xor byte
`(launch_id >> 40) as u8`; when `no` equals the xor byte the group byte stays
`no` and only the lower 40 bits are XORed.  The node_no bits remain 0, and in
all cases the original slot key is recovered by `slot_key(launch_id)` masked
to 40 bits. -/
theorem addr_new_local_bits_spec (s no : Nat) (l : NodeLaunchId) (g : GroupNo)
    (hs : s < 2 ^ 40) (h1 : 1 ≤ no) (h255 : no ≤ 255)
    (hg : GroupNo.new_net no l = some g) :
    (no ≠ (l.into_bits >>> 40) % 2 ^ 8 →
      (Addr.new_local_net s g l).into_bits =
        (no <<< 40 ||| s) ^^^ (l.into_bits &&& (2 ^ 48 - 1)))
  ∧ (no = (l.into_bits >>> 40) % 2 ^ 8 →
      (Addr.new_local_net s g l).into_bits =
        no <<< 40 ||| ((s ^^^ l.into_bits) &&& (2 ^ 40 - 1)))
  ∧ (Addr.new_local_net s g l).node_no = none
  ∧ (Addr.new_local_net s g l).slot_key_net l &&& (2 ^ 40 - 1) = s := by
  rw [groupNo_new_net_eq no l (by omega)] at hg
  injection hg with hgv
  have hno8 : no < 2 ^ 8 := by omega
  have hmod : (s ^^^ l.bits) % 2 ^ 40 < 2 ^ 40 := Nat.mod_lt _ (by norm_num)
  refine ⟨?_, ?_, ?_, slot_key_net_mask s g l hs⟩
  · intro hne
    have hne' : no ≠ (l.bits >>> 40) % 2 ^ 8 := hne
    have hgbits : g.bits = no ^^^ (l.bits >>> 40) % 2 ^ 8 := by
      rw [← hgv, if_pos hne']
    rw [Addr.into_bits, new_local_net_bits, hgbits, NodeLaunchId.into_bits,
      Nat.and_pow_two_sub_one_eq_mod, ← pack_xor_mask48 no s l.bits hno8 hs,
      pack_eq_or 40 no s hs]
  · intro hexc
    have hexc' : no = (l.bits >>> 40) % 2 ^ 8 := hexc
    have hgbits : g.bits = no := by
      rw [← hgv, if_neg (not_not_intro hexc'), ← hexc']
    rw [Addr.into_bits, new_local_net_bits, hgbits, NodeLaunchId.into_bits,
      Nat.and_pow_two_sub_one_eq_mod, pack_eq_or 40 no ((s ^^^ l.bits) % 2 ^ 40) hmod]
  · have hg8 : g.bits < 2 ^ 8 := by
      rw [← hgv]
      by_cases hb : no ≠ (l.bits >>> 40) % 2 ^ 8
      · rw [if_pos hb]
        exact Nat.xor_lt_two_pow hno8 (Nat.mod_lt _ (by norm_num))
      · rw [if_neg hb]
        exact Nat.mod_lt _ (by norm_num)
    have haddr : Addr.new_local_net s g l =
        Addr.mk (g.bits * 2 ^ 40 + (s ^^^ l.bits) % 2 ^ 40) := by
      calc Addr.new_local_net s g l = ⟨(Addr.new_local_net s g l).bits⟩ := rfl
        _ = ⟨g.bits * 2 ^ 40 + (s ^^^ l.bits) % 2 ^ 40⟩ := by rw [new_local_net_bits]
    rw [haddr]
    exact addr_node_no_pack g.bits _ hg8 hmod

/-- Witness for the amended claim C2 at concrete inputs: a generic launch id
(`no = 3` differs from the xor byte `0xE1`) and the exceptional launch id
`1 <<< 40` (`no = 1` equals the xor byte). -/
theorem addr_new_local_bits_spec_witness :
    (Addr.new_local_net 0x1234 ⟨226⟩ ⟨0xE1F0E1F0E1F0E1F0⟩).into_bits =
      (3 <<< 40 ||| 0x1234) ^^^ (0xE1F0E1F0E1F0E1F0 &&& (2 ^ 48 - 1))
  ∧ (Addr.new_local_net 5 ⟨1⟩ ⟨1 <<< 40⟩).into_bits =
      1 <<< 40 ||| ((5 ^^^ 1 <<< 40) &&& (2 ^ 40 - 1))
  ∧ (Addr.new_local_net 0x1234 ⟨226⟩ ⟨0xE1F0E1F0E1F0E1F0⟩).node_no = none
  ∧ (Addr.new_local_net 0x1234 ⟨226⟩ ⟨0xE1F0E1F0E1F0E1F0⟩).slot_key_net
      ⟨0xE1F0E1F0E1F0E1F0⟩ &&& (2 ^ 40 - 1) = 0x1234 := by
  have h := addr_new_local_bits_spec 0x1234 3 ⟨0xE1F0E1F0E1F0E1F0⟩ ⟨226⟩ (by decide)
    (by decide) (by decide) (by decide)
  have h2 := addr_new_local_bits_spec 5 1 ⟨1 <<< 40⟩ ⟨1⟩ (by decide) (by decide) (by decide)
    (by decide)
  exact ⟨h.1 (by decide), h2.2.1 (by decide), h.2.2.1, h.2.2.2⟩

/-- Claim C3: `GroupNo::new(0, launch_id)` is `None` for every launch id
(both modes), and for every fixed launch id the map
`no ↦ GroupNo::new(no, launch_id)` is injective on `1..=255`, lands in
`1..=255`, is onto `1..=255`, and its image has exactly 255 distinct values;
in network mode the stored byte is `no ^ xor` with
`xor = (launch_id >> 40) as u8`, except that for `no == xor` it is `xor`
itself; the plain-mode map is the identity. -/
theorem groupNo_new_bijection (lid : NodeLaunchId) :
    (GroupNo.new_net 0 lid = none ∧ GroupNo.new_plain 0 lid = none)
  ∧ (∀ no, 1 ≤ no → no ≤ 255 →
      GroupNo.new_net no lid =
        some ⟨if no ≠ (lid.into_bits >>> 40) % 2 ^ 8
              then no ^^^ (lid.into_bits >>> 40) % 2 ^ 8
              else (lid.into_bits >>> 40) % 2 ^ 8⟩)
  ∧ (∀ n1 n2, 1 ≤ n1 → n1 ≤ 255 → 1 ≤ n2 → n2 ≤ 255 →
      GroupNo.new_net n1 lid = GroupNo.new_net n2 lid → n1 = n2)
  ∧ (∀ no, 1 ≤ no → no ≤ 255 →
      ∃ g, GroupNo.new_net no lid = some g ∧ 1 ≤ g.bits ∧ g.bits ≤ 255)
  ∧ (∀ b, 1 ≤ b → b ≤ 255 →
      ∃ no, 1 ≤ no ∧ no ≤ 255 ∧ GroupNo.new_net no lid = some ⟨b⟩)
  ∧ ((Finset.Icc 1 255).image (fun no => GroupNo.new_net no lid)).card = 255
  ∧ (∀ no, 1 ≤ no → no ≤ 255 → GroupNo.new_plain no lid = some ⟨no⟩) := by
  refine ⟨⟨rfl, rfl⟩, ?_, ?_, ?_, ?_, ?_, ?_⟩
  · intro no hn1 hn2
    exact groupNo_new_net_eq no lid (by omega)
  · intro n1 n2 h1 h1' h2 h2' h
    exact groupNo_new_net_inj lid n1 n2 h1 h1' h2 h2' h
  · intro no hn1 hn2
    exact groupNo_new_net_some no lid hn1 hn2
  · intro b hb1 hb2
    exact groupNo_new_net_surj lid b hb1 hb2
  · have hinj : Set.InjOn (fun no => GroupNo.new_net no lid) (Finset.Icc 1 255) := by
      intro n1 hn1 n2 hn2 h
      rw [Finset.coe_Icc, Set.mem_Icc] at hn1 hn2
      exact groupNo_new_net_inj lid n1 n2 hn1.1 hn1.2 hn2.1 hn2.2 h
    rw [Finset.card_image_of_injOn hinj, Nat.card_Icc]
  · intro no hn1 hn2
    rw [GroupNo.new_plain, GroupNo.from_bits, if_neg (by omega)]

/-- Witness for claim C3 at concrete inputs (`launch_id = from_bits 0`). -/
theorem groupNo_new_bijection_witness :
    GroupNo.new_net 0 ⟨0⟩ = none
  ∧ GroupNo.new_net 7 ⟨0⟩ = some ⟨7⟩
  ∧ (3 : Nat) = 3
  ∧ (∃ g, GroupNo.new_net 7 ⟨0⟩ = some g ∧ 1 ≤ g.bits ∧ g.bits ≤ 255)
  ∧ (∃ no, 1 ≤ no ∧ no ≤ 255 ∧ GroupNo.new_net no ⟨0⟩ = some ⟨9⟩)
  ∧ GroupNo.new_plain 7 ⟨0⟩ = some ⟨7⟩ := by
  have h := groupNo_new_bijection ⟨0⟩
  refine ⟨h.1.1, ?_, h.2.2.1 3 3 (by decide) (by decide) (by decide) (by decide) rfl,
    h.2.2.2.1 7 (by decide) (by decide), h.2.2.2.2.1 9 (by decide) (by decide),
    h.2.2.2.2.2.2 7 (by decide) (by decide)⟩
  rw [h.2.1 7 (by decide) (by decide)]
  decide

/-- Claim C4: for every address constructed by `Addr::new_local(slot_key,
group_no, launch_id)` with `slot_key < 2^40` (and `group_no` a valid
`NonZeroU8`), in both network and plain modes:
`Addr::from_bits(addr.into_bits()) == Some(addr)`; `addr.into_local() == addr`
(the constructed address is local); and
`addr.slot_key(launch_id) & ((1<<40)-1) == slot_key`. -/
theorem addr_round_trips (s : Nat) (g : GroupNo) (l : NodeLaunchId)
    (hs : s < 2 ^ 40) (hg0 : 0 < g.bits) (hg8 : g.bits < 2 ^ 8) :
    (Addr.from_bits (Addr.new_local_net s g l).into_bits
        = some (Addr.new_local_net s g l)
      ∧ (Addr.new_local_net s g l).into_local = Addr.new_local_net s g l
      ∧ (Addr.new_local_net s g l).is_local = true
      ∧ (Addr.new_local_net s g l).slot_key_net l &&& (2 ^ 40 - 1) = s)
  ∧ (Addr.from_bits (Addr.new_local_plain s g l).into_bits
        = some (Addr.new_local_plain s g l)
      ∧ (Addr.new_local_plain s g l).into_local = Addr.new_local_plain s g l
      ∧ (Addr.new_local_plain s g l).is_local = true
      ∧ (Addr.new_local_plain s g l).slot_key_plain l &&& (2 ^ 40 - 1) = s) := by
  have hmod : (s ^^^ l.bits) % 2 ^ 40 < 2 ^ 40 := Nat.mod_lt _ (by norm_num)
  have haddr : Addr.new_local_net s g l =
      Addr.mk (g.bits * 2 ^ 40 + (s ^^^ l.bits) % 2 ^ 40) := by
    calc Addr.new_local_net s g l = ⟨(Addr.new_local_net s g l).bits⟩ := rfl
      _ = ⟨g.bits * 2 ^ 40 + (s ^^^ l.bits) % 2 ^ 40⟩ := by rw [new_local_net_bits]
  have haddr' : Addr.new_local_plain s g l = Addr.mk (g.bits * 2 ^ 40 + s) := by
    calc Addr.new_local_plain s g l = ⟨(Addr.new_local_plain s g l).bits⟩ := rfl
      _ = ⟨g.bits * 2 ^ 40 + s⟩ := by rw [new_local_plain_bits s g l hs]
  refine ⟨⟨?_, ?_, ?_, slot_key_net_mask s g l hs⟩,
    ⟨?_, ?_, ?_, slot_key_plain_mask s g l hs⟩⟩
  · rw [haddr]
    exact addr_from_bits_pack g.bits _ hg0 hg8 hmod
  · exact addr_into_local_small _
      (by rw [new_local_net_bits]; exact pack_lt_two_pow_48 _ _ hg8 hmod)
  · rw [haddr]
    exact addr_is_local_pack g.bits _ hg0 hg8 hmod
  · rw [haddr']
    exact addr_from_bits_pack g.bits s hg0 hg8 hs
  · exact addr_into_local_small _
      (by rw [new_local_plain_bits s g l hs]; exact pack_lt_two_pow_48 _ _ hg8 hs)
  · rw [haddr']
    exact addr_is_local_pack g.bits s hg0 hg8 hs

/-- Witness for claim C4 at `slot_key = 0x1234`, `group_no = 3`,
`launch_id = from_bits 5`. -/
theorem addr_round_trips_witness :
    (Addr.from_bits (Addr.new_local_net 0x1234 ⟨3⟩ ⟨5⟩).into_bits
        = some (Addr.new_local_net 0x1234 ⟨3⟩ ⟨5⟩)
      ∧ (Addr.new_local_net 0x1234 ⟨3⟩ ⟨5⟩).into_local = Addr.new_local_net 0x1234 ⟨3⟩ ⟨5⟩
      ∧ (Addr.new_local_net 0x1234 ⟨3⟩ ⟨5⟩).is_local = true
      ∧ (Addr.new_local_net 0x1234 ⟨3⟩ ⟨5⟩).slot_key_net ⟨5⟩ &&& (2 ^ 40 - 1) = 0x1234)
  ∧ (Addr.from_bits (Addr.new_local_plain 0x1234 ⟨3⟩ ⟨5⟩).into_bits
        = some (Addr.new_local_plain 0x1234 ⟨3⟩ ⟨5⟩)
      ∧ (Addr.new_local_plain 0x1234 ⟨3⟩ ⟨5⟩).into_local
          = Addr.new_local_plain 0x1234 ⟨3⟩ ⟨5⟩
      ∧ (Addr.new_local_plain 0x1234 ⟨3⟩ ⟨5⟩).is_local = true
      ∧ (Addr.new_local_plain 0x1234 ⟨3⟩ ⟨5⟩).slot_key_plain ⟨5⟩ &&& (2 ^ 40 - 1)
          = 0x1234) :=
  addr_round_trips 0x1234 ⟨3⟩ ⟨5⟩ (by decide) (by decide) (by decide)

/-- Claim C6: for every `u64` value `b`, `Addr::from_bits(b)` returns `Some`
iff exactly one of `is_null()` and `group_no().is_some()` holds for the
wrapped value, the returned address has bits `b`, and in particular
`Addr::from_bits(1) == None`. -/
theorem addr_from_bits_spec (b : Nat) :
    ((Addr.from_bits b).isSome
      = Bool.xor (Addr.mk b).is_null (Addr.mk b).group_no.isSome)
  ∧ (∀ a, Addr.from_bits b = some a → a.into_bits = b)
  ∧ Addr.from_bits 1 = none := by
  have hfb : Addr.from_bits b =
      if Bool.xor (Addr.mk b).is_null (Addr.mk b).group_no.isSome
      then some (Addr.mk b) else none := rfl
  refine ⟨?_, ?_, by decide⟩
  · rw [hfb]
    cases Bool.xor (Addr.mk b).is_null (Addr.mk b).group_no.isSome with
    | false => rfl
    | true => rfl
  · intro a ha
    rw [hfb] at ha
    cases hx : Bool.xor (Addr.mk b).is_null (Addr.mk b).group_no.isSome with
    | false =>
      rw [if_neg (by rw [hx]; exact Bool.false_ne_true)] at ha
      exact absurd ha (Option.noConfusion)
    | true =>
      rw [if_pos (by rw [hx])] at ha
      injection ha with ha'
      rw [← ha']
      rfl

/-- Witness for claim C6's `Some` case at `b = 3 <<< 40`. -/
theorem addr_from_bits_spec_witness :
    (Addr.mk (3 <<< 40)).into_bits = 3 <<< 40 :=
  (addr_from_bits_spec (3 <<< 40)).2.1 (Addr.mk (3 <<< 40)) (by decide)

/-- Claim C7: `Addr::NULL` is the all-zeros value, displays as `"null"`,
`is_null()` holds, `group_no()` and `node_no()` are both `None`,
`into_local()` is the identity on it, and `into_remote(n)` leaves it unchanged
for every node number. -/
theorem addr_null_spec :
    Addr.NULL.into_bits = 0
  ∧ Addr.fmt Addr.NULL = some "null"
  ∧ Addr.NULL.is_null = true
  ∧ Addr.NULL.group_no = none
  ∧ Addr.NULL.node_no = none
  ∧ Addr.NULL.into_local = Addr.NULL
  ∧ (∀ n : NodeNo, Addr.NULL.into_remote n = Addr.NULL) := by
  refine ⟨rfl, rfl, rfl, rfl, rfl, rfl, ?_⟩
  intro n
  rw [Addr.into_remote, if_neg (by decide)]

/-- Claim C5: `Envelope::duplicate(book)` on a `Regular` envelope always
returns `Some` (same sender); on a `RequestAny`/`RequestAll` envelope it
returns `None` iff the sender no longer resolves to an actor in the address
book or that actor's request table refuses to mint a sibling token; when it
returns `Some`, the duplicate has the original's trace id and kind variant,
and its token is exactly the one minted by the sender's request table. -/
theorem envelope_duplicate_spec {M : Type} (e : Envelope M) (book : AddressBook) :
    (∀ sender, e.kind = .Regular sender →
      e.duplicate book = some ⟨e.trace_id, .Regular sender, e.message⟩)
  ∧ (∀ t, e.kind = .RequestAny t →
      (e.duplicate book = none ↔
        book.get_actor t.sender = none ∨
        ∃ actor, book.get_actor t.sender = some actor ∧
          actor.request_table.clone_token t = none)
      ∧ (∀ t', book.mint t = some t' →
          e.duplicate book = some ⟨e.trace_id, .RequestAny t', e.message⟩))
  ∧ (∀ t, e.kind = .RequestAll t →
      (e.duplicate book = none ↔
        book.get_actor t.sender = none ∨
        ∃ actor, book.get_actor t.sender = some actor ∧
          actor.request_table.clone_token t = none)
      ∧ (∀ t', book.mint t = some t' →
          e.duplicate book = some ⟨e.trace_id, .RequestAll t', e.message⟩)) := by
  refine ⟨?_, ?_, ?_⟩
  · intro sender hk
    simp only [Envelope.duplicate, hk]
  · intro t hk
    rw [duplicate_requestAny e book t hk]
    constructor
    · rw [Option.map_eq_none', mint_eq_none_iff]
    · intro t' hm
      rw [hm]
      rfl
  · intro t hk
    rw [duplicate_requestAll e book t hk]
    constructor
    · rw [Option.map_eq_none', mint_eq_none_iff]
    · intro t' hm
      rw [hm]
      rfl

/-- Witness for claim C5: a concrete request envelope duplicated through a
book whose request table mints a token with a bumped correlation id, and a
concrete regular envelope duplicated through an empty book. -/
theorem envelope_duplicate_spec_witness :
    (Envelope.mk ⟨1⟩ (.RequestAny ⟨⟨5⟩, 0⟩) (0 : Nat)).duplicate
        ⟨fun _ => some ⟨some ⟨⟨fun t => some ⟨t.sender, t.correlation + 1⟩⟩⟩⟩⟩
      = some ⟨⟨1⟩, .RequestAny ⟨⟨5⟩, 1⟩, (0 : Nat)⟩
  ∧ (Envelope.mk ⟨1⟩ (.RequestAll ⟨⟨5⟩, 0⟩) (0 : Nat)).duplicate ⟨fun _ => none⟩ = none
  ∧ (Envelope.mk ⟨1⟩ (.Regular ⟨5⟩) (0 : Nat)).duplicate ⟨fun _ => none⟩
      = some ⟨⟨1⟩, .Regular ⟨5⟩, (0 : Nat)⟩ := by
  refine ⟨?_, ?_, ?_⟩
  · exact ((envelope_duplicate_spec (Envelope.mk ⟨1⟩ (.RequestAny ⟨⟨5⟩, 0⟩) (0 : Nat))
      ⟨fun _ => some ⟨some ⟨⟨fun t => some ⟨t.sender, t.correlation + 1⟩⟩⟩⟩⟩).2.1
      ⟨⟨5⟩, 0⟩ rfl).2 ⟨⟨5⟩, 1⟩ rfl
  · exact ((envelope_duplicate_spec (Envelope.mk ⟨1⟩ (.RequestAll ⟨⟨5⟩, 0⟩) (0 : Nat))
      ⟨fun _ => none⟩).2.2 ⟨⟨5⟩, 0⟩ rfl).1.mpr (Or.inl rfl)
  · exact (envelope_duplicate_spec (Envelope.mk ⟨1⟩ (.Regular ⟨5⟩) (0 : Nat))
      ⟨fun _ => none⟩).1 ⟨5⟩ rfl

/-- Claim C8: the network group's router routes every `UpdateConfig` envelope
to `Unicast(Discovery)`, every `HandleConnection { local, remote }` envelope
to `Unicast(Worker { local, remote })` with exactly the message's fields, and
every other message to `Default`. -/
theorem network_router_spec :
    network_router .UpdateConfig = .Unicast .Discovery
  ∧ (∀ loc rem : GroupInfo,
      network_router (.HandleConnection loc rem) = .Unicast (.Worker loc rem))
  ∧ (∀ tag : String, network_router (.Other tag) = .Default) :=
  ⟨rfl, fun _ _ => rfl, fun _ => rfl⟩

/-- Claim C9: `ErrorChain` formats a finite cause chain as the displays of
the chain joined by `": "` in outer-to-inner order; a three-level chain
"outer" → "inner" → "innermost" formats as `"outer: inner: innermost"`, and
an error with no source formats as its own display alone. -/
theorem error_chain_fmt_spec :
    (∀ e : DynError, ErrorChain.fmt e = joinColon e.chainDisplays)
  ∧ ErrorChain.fmt (.ctx "outer" (.ctx "inner" (.leaf "innermost")))
      = "outer: inner: innermost"
  ∧ (∀ m : String, (DynError.leaf m).source = none ∧ ErrorChain.fmt (.leaf m) = m) := by
  refine ⟨fmt_eq_joinColon, by decide, ?_⟩
  intro m
  refine ⟨rfl, ?_⟩
  show m ++ "" = m
  simp

/-- Claim C10: for every local `Addr` and every `NodeNo` `n`,
`into_remote(n)` followed by `into_local()` is the identity; `into_remote`
changes only the top 16 node bits, so the group number, the low 48 bits and
the 40-bit-masked slot key (in both modes, under any launch id) are unchanged,
`node_no()` becomes `Some(n)`, and the result is not null. -/
theorem into_remote_local_spec (a : Addr) (n : NodeNo) (l : NodeLaunchId)
    (hl : a.is_local = true) (h64 : a.bits < 2 ^ 64)
    (hn0 : 0 < n.bits) (hn16 : n.bits < 2 ^ 16) :
    (a.into_remote n).into_local = a
  ∧ (a.into_remote n).group_no = a.group_no
  ∧ (a.into_remote n).bits &&& (2 ^ 48 - 1) = a.bits &&& (2 ^ 48 - 1)
  ∧ (a.into_remote n).slot_key_net l &&& (2 ^ 40 - 1)
      = a.slot_key_net l &&& (2 ^ 40 - 1)
  ∧ (a.into_remote n).slot_key_plain l &&& (2 ^ 40 - 1)
      = a.slot_key_plain l &&& (2 ^ 40 - 1)
  ∧ (a.into_remote n).node_no = some n
  ∧ (a.into_remote n).is_null = false := by
  have h48 : a.bits < 2 ^ 48 := is_local_bits_lt a hl h64
  have hbits : (a.into_remote n).bits = n.bits * 2 ^ 48 + a.bits :=
    into_remote_bits a n hl h48
  refine ⟨?_, ?_, ?_, ?_, ?_, ?_, ?_⟩
  · rw [Addr.into_local, hbits, NODE_NO_SHIFT, Nat.one_shiftLeft,
      Nat.and_pow_two_sub_one_eq_mod, remote_pack_mod48 n.bits a.bits h48]
  · rw [Addr.group_no, Addr.group_no, hbits, GROUP_NO_SHIFT, remote_pack_shift40_mod8]
  · rw [hbits, Nat.and_pow_two_sub_one_eq_mod, Nat.and_pow_two_sub_one_eq_mod,
      remote_pack_mod48 n.bits a.bits h48, Nat.mod_eq_of_lt h48]
  · rw [Addr.slot_key_net, Addr.slot_key_net, hbits, Nat.and_pow_two_sub_one_eq_mod,
      Nat.and_pow_two_sub_one_eq_mod, usize_mod40, usize_mod40, xor_mod_two_pow,
      xor_mod_two_pow, remote_pack_mod40]
  · rw [Addr.slot_key_plain, Addr.slot_key_plain, hbits, Nat.and_pow_two_sub_one_eq_mod,
      Nat.and_pow_two_sub_one_eq_mod, usize_mod40, usize_mod40, remote_pack_mod40]
  · rw [Addr.node_no, hbits, NODE_NO_SHIFT, pack_shift 48 n.bits a.bits h48,
      Nat.mod_eq_of_lt hn16, NodeNo.from_bits, if_neg (by omega)]
  · have hpos : 0 < n.bits * 2 ^ 48 + a.bits :=
      Nat.lt_of_lt_of_le (Nat.mul_pos hn0 (by norm_num)) (Nat.le_add_right _ _)
    simp only [Addr.is_null, decide_eq_false_iff_not]
    intro hnull
    have hb0 := congrArg Addr.bits hnull
    rw [hbits] at hb0
    simp only [Addr.NULL] at hb0
    omega

/-- Witness for claim C10 at the local address with bits
`3 * 2^40 + 0x1234`, node number 42 and launch id 7. -/
theorem into_remote_local_spec_witness :
    ((Addr.mk (3 * 2 ^ 40 + 0x1234)).into_remote ⟨42⟩).into_local
        = Addr.mk (3 * 2 ^ 40 + 0x1234)
  ∧ ((Addr.mk (3 * 2 ^ 40 + 0x1234)).into_remote ⟨42⟩).group_no
        = (Addr.mk (3 * 2 ^ 40 + 0x1234)).group_no
  ∧ ((Addr.mk (3 * 2 ^ 40 + 0x1234)).into_remote ⟨42⟩).bits &&& (2 ^ 48 - 1)
        = (Addr.mk (3 * 2 ^ 40 + 0x1234)).bits &&& (2 ^ 48 - 1)
  ∧ ((Addr.mk (3 * 2 ^ 40 + 0x1234)).into_remote ⟨42⟩).slot_key_net ⟨7⟩ &&& (2 ^ 40 - 1)
        = (Addr.mk (3 * 2 ^ 40 + 0x1234)).slot_key_net ⟨7⟩ &&& (2 ^ 40 - 1)
  ∧ ((Addr.mk (3 * 2 ^ 40 + 0x1234)).into_remote ⟨42⟩).slot_key_plain ⟨7⟩ &&& (2 ^ 40 - 1)
        = (Addr.mk (3 * 2 ^ 40 + 0x1234)).slot_key_plain ⟨7⟩ &&& (2 ^ 40 - 1)
  ∧ ((Addr.mk (3 * 2 ^ 40 + 0x1234)).into_remote ⟨42⟩).node_no = some ⟨42⟩
  ∧ ((Addr.mk (3 * 2 ^ 40 + 0x1234)).into_remote ⟨42⟩).is_null = false :=
  into_remote_local_spec (Addr.mk (3 * 2 ^ 40 + 0x1234)) ⟨42⟩ ⟨7⟩ (by decide) (by decide)
    (by decide) (by decide)

end Elfo
